import Mathlib

set_option maxRecDepth 8192

/-!
Shallow embedding of the firmware-upgrade transport core of this repository:
the SMP-over-UDP dispatcher and upload state machine of
boot/zephyr/boot_udp.c, and the flash-area port of
boot/espressif/port/esp_mcuboot.c.

Modelling conventions:
- machine integers are Nat, with an explicit mod 2^32 exactly where the C
  computes in uint32_t (e.g. the end_offset bound checks);
- the raw flash driver (bootloader_flash_read / bootloader_flash_write /
  bootloader_flash_erase_range) is an external collaborator; it is modelled
  as total operations over a byte-addressed memory Mem, and every raw call
  is recorded in a RawOp trace so that claims about "no raw I/O" are
  statable;
- external oracles (image validator, TLV iterator, post-upload hook,
  boot_set_pending_multi) are parameters of the embedding;
- CBOR decoding is abstracted: a request is the record of decoded fields,
  with absent keys as none (the C sentinels SIZE_MAX / UINT_MAX are kept
  where the code tests them).
-/

/-! ## Constants (boot_udp.c and esp_mcuboot.c defines) -/

def MGMT_ERR_OK : Nat := 0

def MGMT_ERR_EINVAL : Nat := 3

def MGMT_ERR_ENOENT : Nat := 5

def NMGR_OP_READ : Nat := 0

def NMGR_OP_WRITE : Nat := 2

def IMAGE_HASH_SIZE : Nat := 32

def IMAGE_SHA_TLV : Nat := 0x10

def IMAGE_MAGIC : Nat := 0x96f3b83d

def FLASH_DEVICE_INTERNAL_FLASH : Nat := 0

def FLASH_BUFFER_SIZE : Nat := 256

def BOOTLOADER_START_ADDRESS : Nat := 0x1000

def SIZE_MAX_C : Nat := 2 ^ 64 - 1

def UINT_MAX_C : Nat := 2 ^ 32 - 1

/-! ## Flash memory model and raw driver trace -/

/-- Byte-addressed flash device contents (device addresses, not area offsets). -/
def Mem : Type := Nat → Nat

/-- One call into the raw flash driver. -/
inductive RawOp where
  | read (addr len : Nat)
  | write (addr : Nat) (data : List Nat)
  | erase (addr len : Nat)
deriving DecidableEq

/-- Effect of bootloader_flash_write on the device bytes. -/
def rawWrite (m : Mem) (addr : Nat) (data : List Nat) : Mem :=
  match data with
  | [] => m
  | b :: bs => rawWrite (fun a => if a = addr then b else m a) (addr + 1) bs

/-- Effect of bootloader_flash_erase_range: the range becomes the erased value 0xff. -/
def rawErase (m : Mem) (addr len : Nat) : Mem :=
  fun a => if addr ≤ a ∧ a < addr + len then 0xff else m a

/-- Bytes delivered by raw reads of [addr, addr+len). -/
def rawReadBytes (m : Mem) (addr len : Nat) : List Nat :=
  (List.range len).map (fun i => m (addr + i))

/-! ## Flash area registry (esp_mcuboot.c) -/

structure FlashArea where
  fa_id : Nat
  fa_device_id : Nat
  fa_off : Nat
  fa_size : Nat
deriving DecidableEq

/-- Compile-time configuration constants (CONFIG_ESP_* values). -/
structure Config where
  bootloaderSize : Nat
  primaryOff : Nat
  secondaryOff : Nat
  appSize : Nat
  scratchOff : Nat
  scratchSize : Nat
  sectorSize : Nat
deriving DecidableEq

/- Modelled from the spec: the area identifiers of sysflash.h are not under
src/. Per the spec there are areas BOOTLOADER, PRIMARY(i), SECONDARY(i) for
i < NUM_IMAGES (here NUM_IMAGES = 1) and SCRATCH; an out-of-range image
index yields an identifier absent from the registry (255, the uint8_t image
of the C port returning -1 for unknown requests). -/

def FLASH_AREA_BOOTLOADER : Nat := 0

def FLASH_AREA_IMAGE_PRIMARY (i : Nat) : Nat := if i = 0 then 1 else 255

def FLASH_AREA_IMAGE_SECONDARY (i : Nat) : Nat := if i = 0 then 2 else 255

def FLASH_AREA_IMAGE_SCRATCH : Nat := 3

def bootloader_area (cfg : Config) : FlashArea :=
  ⟨FLASH_AREA_BOOTLOADER, FLASH_DEVICE_INTERNAL_FLASH, BOOTLOADER_START_ADDRESS,
    cfg.bootloaderSize⟩

def primary_img0 (cfg : Config) : FlashArea :=
  ⟨FLASH_AREA_IMAGE_PRIMARY 0, FLASH_DEVICE_INTERNAL_FLASH, cfg.primaryOff, cfg.appSize⟩

def secondary_img0 (cfg : Config) : FlashArea :=
  ⟨FLASH_AREA_IMAGE_SECONDARY 0, FLASH_DEVICE_INTERNAL_FLASH, cfg.secondaryOff, cfg.appSize⟩

def scratch_img0 (cfg : Config) : FlashArea :=
  ⟨FLASH_AREA_IMAGE_SCRATCH, FLASH_DEVICE_INTERNAL_FLASH, cfg.scratchOff, cfg.scratchSize⟩

def s_flash_areas (cfg : Config) : List FlashArea :=
  [bootloader_area cfg, primary_img0 cfg, secondary_img0 cfg, scratch_img0 cfg]

def prv_lookup_flash_area (cfg : Config) (id : Nat) : Option FlashArea :=
  (s_flash_areas cfg).find? (fun a => a.fa_id == id)

/-- flash_area_open: lookup; NULL (none) on unknown identifier. -/
def flash_area_open (cfg : Config) (id : Nat) : Option FlashArea :=
  prv_lookup_flash_area cfg id

def flash_area_align (_fa : FlashArea) : Nat := 4

def flash_area_erased_val (_fa : FlashArea) : Nat := 0xff

def flash_area_get_size (fa : FlashArea) : Nat := fa.fa_size

/-- flash_area_id_from_multi_image_slot; the C returns int -1 for a bad slot,
which its callers pass to flash_area_open through a uint8_t (255). -/
def flash_area_id_from_multi_image_slot (imageIndex slot : Nat) : Nat :=
  match slot with
  | 0 => FLASH_AREA_IMAGE_PRIMARY imageIndex
  | 1 => FLASH_AREA_IMAGE_SECONDARY imageIndex
  | _ => 255

/-! ## Aligned flash I/O (esp_mcuboot.c) -/

def alignDown (n a : Nat) : Nat := n - n % a

def alignUp (n a : Nat) : Nat := alignDown (n + a - 1) a

def alignOffset (n a : Nat) : Nat := n % a

/-- The tail loop of aligned_flash_read: buffer-sized aligned raw reads until
all bytes have been delivered. Returns delivered bytes and the raw-read trace. -/
def aligned_flash_read_loop (m : Mem) (alignedAddr offset bytesRemaining : Nat) :
    List Nat × List RawOp :=
  if h : bytesRemaining = 0 then ([], [])
  else
    let bytes := min bytesRemaining FLASH_BUFFER_SIZE
    let pr := aligned_flash_read_loop m alignedAddr (offset + bytes) (bytesRemaining - bytes)
    (rawReadBytes m (alignedAddr + offset) bytes ++ pr.1,
      RawOp.read (alignedAddr + offset) (alignUp bytes 4) :: pr.2)
termination_by bytesRemaining
decreasing_by
  have h1 : 0 < min bytesRemaining FLASH_BUFFER_SIZE := by
    have : 0 < bytesRemaining := Nat.pos_of_ne_zero h
    simp [FLASH_BUFFER_SIZE]
    omega
  omega

/-- aligned_flash_read: dstAligned models the (uintptr_t)dest % 4 == 0 test on
the destination RAM pointer, which a shallow embedding cannot compute. Raw
reads are modelled as always succeeding. -/
def aligned_flash_read (m : Mem) (addr len : Nat) (dstAligned : Bool) :
    List Nat × List RawOp :=
  if addr % 4 = 0 ∧ dstAligned = true ∧ len % 4 = 0 then
    (rawReadBytes m addr len, [RawOp.read addr len])
  else
    let alignedAddr := alignDown addr 4
    let addrOffset := alignOffset addr 4
    let bytes := min (len + addrOffset) FLASH_BUFFER_SIZE
    let bytesRead := bytes - addrOffset
    let pr := aligned_flash_read_loop m alignedAddr bytes (len - bytesRead)
    (rawReadBytes m addr bytesRead ++ pr.1,
      RawOp.read alignedAddr (alignUp bytes 4) :: pr.2)

structure ReadRes where
  ok : Bool
  bytes : List Nat
  ops : List RawOp

/-- flash_area_read. The end_offset bound is computed in uint32_t, hence the
mod 2^32. -/
def flash_area_read (fa : FlashArea) (off len : Nat) (m : Mem) (dstAligned : Bool) :
    ReadRes :=
  if fa.fa_device_id ≠ FLASH_DEVICE_INTERNAL_FLASH then ⟨false, [], []⟩
  else if (off + len) % 2 ^ 32 > fa.fa_size then ⟨false, [], []⟩
  else
    let pr := aligned_flash_read m (fa.fa_off + off) len dstAligned
    ⟨true, pr.1, pr.2⟩

structure WriteRes where
  ok : Bool
  mem : Mem
  ops : List RawOp

/-- flash_area_write. For len < 4 the C performs a read-modify-write of one
4-byte word, initialising write_data to 0 and IGNORING the result of the
internal read; moreover it passes the device address start_addr = fa_off+off
to flash_area_read, which expects an area offset (kept faithfully here). -/
def flash_area_write (fa : FlashArea) (off : Nat) (src : List Nat) (m : Mem) :
    WriteRes :=
  if fa.fa_device_id ≠ FLASH_DEVICE_INTERNAL_FLASH then ⟨false, m, []⟩
  else if (off + src.length) % 2 ^ 32 > fa.fa_size then ⟨false, m, []⟩
  else
    let startAddr := fa.fa_off + off
    if src.length < 4 then
      let rd := flash_area_read fa startAddr 4 m true
      let word := if rd.ok then rd.bytes else [0, 0, 0, 0]
      let wordBytes := src ++ word.drop src.length
      ⟨true, rawWrite m startAddr wordBytes, rd.ops ++ [RawOp.write startAddr wordBytes]⟩
    else
      ⟨true, rawWrite m startAddr src, [RawOp.write startAddr src]⟩

structure EraseRes where
  ok : Bool
  mem : Mem
  ops : List RawOp

/-- flash_area_erase: device and sector-alignment checks only; the C performs
NO bounds check against fa_size before delegating to the raw erase. -/
def flash_area_erase (cfg : Config) (fa : FlashArea) (off len : Nat) (m : Mem) :
    EraseRes :=
  if fa.fa_device_id ≠ FLASH_DEVICE_INTERNAL_FLASH then ⟨false, m, []⟩
  else if len % cfg.sectorSize ≠ 0 ∨ off % cfg.sectorSize ≠ 0 then ⟨false, m, []⟩
  else
    ⟨true, rawErase m (fa.fa_off + off) len, [RawOp.erase (fa.fa_off + off) len]⟩

/-! ## SMP header and dispatcher (boot_udp.c) -/

/-- struct nmgr_hdr. Fields hold the values as loaded on the little-endian
target: nh_len and nh_group are native loads of the two wire bytes; the code
applies ntohs where it wants the big-endian value. -/
structure NmgrHdr where
  nh_op : Nat
  nh_version : Nat
  nh_res1 : Nat
  nh_flags : Nat
  nh_len : Nat
  nh_group : Nat
  nh_seq : Nat
  nh_id : Nat
deriving DecidableEq

/-- ntohs / htons on a uint16 value: swap the two bytes. -/
def swap16 (x : Nat) : Nat := x % 256 * 256 + x / 256 % 256

/-- Overlay of struct nmgr_hdr on the first 8 datagram bytes (little-endian
target, bitfields allocated from the least significant bit). -/
def loadHdr (b : List Nat) : NmgrHdr :=
  { nh_op := b.getD 0 0 % 8
    nh_version := b.getD 0 0 / 8 % 4
    nh_res1 := b.getD 0 0 / 32 % 8
    nh_flags := b.getD 1 0
    nh_len := b.getD 2 0 + 256 * b.getD 3 0
    nh_group := b.getD 4 0 + 256 * b.getD 5 0
    nh_seq := b.getD 6 0
    nh_id := b.getD 7 0 }

/-- The header-validity gate of boot_grp_procces. The C drops the datagram
(returns without reply) when this is true; note the comparison direction
ntohs(nh_len) < len - 8 of the source. -/
def boot_grp_drop (buf : List Nat) : Bool :=
  let hdr := loadHdr buf
  buf.length < 8 ∨
    (hdr.nh_op ≠ NMGR_OP_READ ∧ hdr.nh_op ≠ NMGR_OP_WRITE) ∨
    swap16 hdr.nh_len < buf.length - 8

/-- boot_grp_procces up to routing: none when the datagram is dropped,
otherwise (op, host-order group, id, seq, payload) handed to the handlers. -/
def boot_grp_procces (buf : List Nat) : Option (Nat × Nat × Nat × Nat × List Nat) :=
  if boot_grp_drop buf then none
  else
    let hdr := loadHdr buf
    some (hdr.nh_op, swap16 hdr.nh_group, hdr.nh_id, hdr.nh_seq, buf.drop 8)

/-- boot_grp_send as it acts on the header bytes that were received in
udp_buffer: set nh_len to htons(payload length), re-swap nh_group, leave
every other field (op, version, flags, seq, id) untouched. -/
def boot_grp_send_hdr (h : NmgrHdr) (payloadLen : Nat) : NmgrHdr :=
  { h with nh_len := swap16 payloadLen, nh_group := swap16 h.nh_group }

/-- The header of the reply to a received header: boot_grp_procces first
rewrites nh_group to ntohs(nh_group) in place, then the handler replies
through boot_grp_send. -/
def boot_reply_hdr (reqHdr : NmgrHdr) (payloadLen : Nat) : NmgrHdr :=
  boot_grp_send_hdr { reqHdr with nh_group := swap16 reqHdr.nh_group } payloadLen

/-! ## Manifest hash (boot_serial_get_hash) -/

/-- One TLV entry as delivered by the external bootutil_tlv_iter_next:
flash offset of the payload, length and type. -/
structure TlvEntry where
  off : Nat
  len : Nat
  ty : Nat
deriving DecidableEq

/-- boot_serial_get_hash over the TLV list delivered by the external iterator
(none models bootutil_tlv_iter_begin failing). First entry of the hash type
wins; a length mismatch aborts; the hash bytes are read through
flash_area_read. -/
def boot_serial_get_hash (tlvs : Option (List TlvEntry)) (fa : FlashArea) (m : Mem) :
    Option (List Nat) :=
  match tlvs with
  | none => none
  | some es => boot_serial_get_hash_walk es fa m
where
  boot_serial_get_hash_walk : List TlvEntry → FlashArea → Mem → Option (List Nat)
    | [], _, _ => none
    | e :: rest, fa, m =>
      if e.ty = IMAGE_SHA_TLV then
        if e.len ≠ IMAGE_HASH_SIZE then none
        else
          let rd := flash_area_read fa e.off e.len m true
          if rd.ok then some rd.bytes else none
      else boot_serial_get_hash_walk rest fa m

/-! ## bs_set (image state write handler) -/

/-- Little-endian uint32 load from flash, used for image_header.ih_magic
(the first field of the header read from area offset 0). -/
def le32 (m : Mem) (addr : Nat) : Nat :=
  m addr + 256 * m (addr + 1) + 65536 * m (addr + 2) + 16777216 * m (addr + 3)

/-- External collaborators of bs_set: the image count, the validator verdict
per image index (bootutil_img_validate through the FIH hooks), the TLV
iterator per image index, and the boot_set_pending_multi result. -/
structure SetEnv where
  numImages : Nat
  validate : Nat → Bool
  tlvs : Nat → Option (List TlvEntry)
  setPendingRc : Nat

/-- Decoded bs_set request; a hash of length 0 models the absent key the C
tests via img_hash.len == 0. -/
structure SetReq where
  confirm : Bool
  hash : List Nat

inductive SetReply where
  | list
  | rc (code : Nat)
deriving DecidableEq

structure SetRes where
  reply : SetReply
  setPendingCalls : List (Nat × Bool)

/-- The body of the bs_set scan loop for one image index: open the secondary
area; when the header magic matches, a failed validation skips the slot, but
a slot whose magic does NOT match falls through to the hash comparison
unvalidated (faithful to the source); then compare the manifest hash. -/
def bs_set_slot_match (cfg : Config) (env : SetEnv) (m : Mem) (req : SetReq)
    (i : Nat) : Bool :=
  match flash_area_open cfg (flash_area_id_from_multi_image_slot i 1) with
  | none => false
  | some fap =>
    if le32 m fap.fa_off = IMAGE_MAGIC ∧ env.validate i = false then false
    else
      match boot_serial_get_hash (env.tlvs i) fap m with
      | some h => h == req.hash
      | none => false

/-- Ascending scan of the image indices, stopping at the first match (the
for loop with break of bs_set). -/
def bs_set_scan (p : Nat → Bool) : Nat → Nat → Option Nat
  | _, 0 => none
  | i, fuel + 1 => if p i then some i else bs_set_scan p (i + 1) fuel

/-- bs_set. On success the C replies with the full image list (bs_list),
abstracted as SetReply.list. -/
def bs_set (cfg : Config) (env : SetEnv) (m : Mem) (req : SetReq) : SetRes :=
  if (req.hash.length ≠ IMAGE_HASH_SIZE ∧ req.hash.length ≠ 0) ∨
      (req.hash.length = 0 ∧ env.numImages > 1) then
    ⟨.rc MGMT_ERR_EINVAL, []⟩
  else if req.hash.length ≠ 0 then
    match bs_set_scan (bs_set_slot_match cfg env m req) 0 env.numImages with
    | some i =>
      ⟨if env.setPendingRc = 0 then .list else .rc env.setPendingRc,
        [(i, req.confirm)]⟩
    | none => ⟨.rc MGMT_ERR_ENOENT, []⟩
  else
    ⟨if env.setPendingRc = 0 then .list else .rc env.setPendingRc,
      [(0, req.confirm)]⟩

/-! ## bs_upload (upload state machine) -/

/-- The static state of bs_upload (img_num, img_size, curr_off). -/
structure UploadState where
  img_num : Nat
  img_size : Nat
  curr_off : Nat
deriving DecidableEq

/-- Decoded upload request; none models an absent key (the C sentinels
SIZE_MAX for off/len and UINT_MAX for image, NULL for data). -/
structure UploadReq where
  image : Option Nat
  data : Option (List Nat)
  lenField : Option Nat
  off : Option Nat

/-- External collaborators of bs_upload: the post-upload hook result and the
boot_set_pending_multi result. -/
structure UploadEnv where
  hookRc : Nat
  setPendingRc : Nat

structure UploadRes where
  state : UploadState
  mem : Mem
  ops : List RawOp
  rc : Nat
  replyOff : Option Nat
  setPendingCalls : List (Nat × Bool)
  hookCalls : Nat
  divByZero : Bool
  wroteOk : Bool

/-- Assemble the reply at the out label: the off field is encoded exactly
when rc == 0, with the current cursor. -/
def uploadOut (st : UploadState) (m : Mem) (ops : List RawOp) (rc : Nat)
    (setP : List (Nat × Bool)) (hook : Nat) (dz : Bool) (wrote : Bool) : UploadRes :=
  ⟨st, m, ops, rc, if rc = 0 then some st.curr_off else none, setP, hook, dz, wrote⟩

/-- Lines 476-486: on successful writes advance the cursor; at completion run
the post-upload hook (a nonzero result goes to out as the rc) and then
boot_set_pending_multi(0, true). -/
def uploadFinish (env : UploadEnv) (st : UploadState) (m : Mem) (ops : List RawOp)
    (dz : Bool) : UploadRes :=
  if st.curr_off = st.img_size then
    if env.hookRc ≠ 0 then uploadOut st m ops env.hookRc [] 1 dz true
    else uploadOut st m ops env.setPendingRc [(0, true)] 1 dz true
  else uploadOut st m ops MGMT_ERR_OK [] 0 dz true

/-- Lines 457-490: alignment bookkeeping, the progress-bar percentages
(which divide by img_size: dz records reaching them with img_size = 0), the
chunk write, and the 0xff-padded tail word write. st is the state already
holding the cursor and image size for this write. -/
def uploadWrite (env : UploadEnv) (fap : FlashArea) (st : UploadState) (m : Mem)
    (ops0 : List RawOp) (chunk : List Nat) : UploadRes :=
  let al := flash_area_align fap
  let rem0 := chunk.length % al
  let len1 := chunk.length - rem0
  let rem := if st.curr_off + len1 + rem0 < st.img_size then 0 else rem0
  let dz := st.img_size == 0
  let w1 := flash_area_write fap st.curr_off (chunk.take len1) m
  if w1.ok = false then
    uploadOut st w1.mem (ops0 ++ w1.ops) MGMT_ERR_EINVAL [] 0 dz false
  else if 0 < rem then
    let tail := (chunk.drop len1).take rem ++ List.replicate (al - rem) (flash_area_erased_val fap)
    let w2 := flash_area_write fap (st.curr_off + len1) tail w1.mem
    if w2.ok = false then
      uploadOut st w2.mem (ops0 ++ w1.ops ++ w2.ops) MGMT_ERR_EINVAL [] 0 dz false
    else
      uploadFinish env { st with curr_off := st.curr_off + len1 + rem }
        w2.mem (ops0 ++ w1.ops ++ w2.ops) dz
  else
    uploadFinish env { st with curr_off := st.curr_off + len1 }
      w1.mem (ops0 ++ w1.ops) dz

/-- Lines 427-433: at off == 0 adopt the image number (UINT_MAX, i.e. an
absent key, falls back to 0). -/
def upload_img_num (st : UploadState) (req : UploadReq) : Nat :=
  match req.off with
  | some 0 =>
    match req.image with
    | some v => if v = UINT_MAX_C then 0 else v
    | none => 0
  | _ => st.img_num

/-- bs_upload, one request. -/
def bs_upload (cfg : Config) (env : UploadEnv) (st : UploadState) (m : Mem)
    (req : UploadReq) : UploadRes :=
  match req.off, req.data with
  | none, _ => uploadOut st m [] MGMT_ERR_EINVAL [] 0 false false
  | some _, none => uploadOut st m [] MGMT_ERR_EINVAL [] 0 false false
  | some off, some chunk =>
    let st0 := { st with img_num := upload_img_num st req }
    match flash_area_open cfg (flash_area_id_from_multi_image_slot st0.img_num 1) with
    | none => uploadOut st0 m [] MGMT_ERR_EINVAL [] 0 false false
    | some fap =>
      if off = 0 then
        let areaSize := flash_area_get_size fap
        let st1 := { st0 with curr_off := 0 }
        let imgSizeTmp := match req.lenField with | some v => v | none => SIZE_MAX_C
        if imgSizeTmp > areaSize then
          uploadOut st1 m [] MGMT_ERR_EINVAL [] 0 false false
        else
          let er := flash_area_erase cfg fap 0 areaSize m
          if er.ok = false then
            uploadOut st1 er.mem er.ops MGMT_ERR_EINVAL [] 0 false false
          else
            uploadWrite env fap { st1 with img_size := imgSizeTmp } er.mem er.ops chunk
      else if off ≠ st.curr_off then
        uploadOut st0 m [] MGMT_ERR_OK [] 0 false false
      else if st.curr_off + chunk.length > st.img_size then
        uploadOut st0 m [] MGMT_ERR_EINVAL [] 0 false false
      else
        uploadWrite env fap st0 m [] chunk

/-- A sequence of upload requests processed by the resident handler. -/
def runUpload (cfg : Config) (env : UploadEnv) :
    UploadState → Mem → List UploadReq → UploadState × Mem
  | st, m, [] => (st, m)
  | st, m, r :: rs =>
    let res := bs_upload cfg env st m r
    runUpload cfg env res.state res.mem rs

/-! ## Sample configuration and inputs for the concrete theorems -/

def cfgSample : Config :=
  { bootloaderSize := 0xF000
    primaryOff := 0x10000
    secondaryOff := 0x110000
    appSize := 0x100000
    scratchOff := 0x210000
    scratchSize := 0x40000
    sectorSize := 0x1000 }

def memSample : Mem := fun _ => 0x5A

def envSample : UploadEnv := ⟨0, 0⟩

/-- Upload requests whose off == 0 chunks carry at most the declared total
size of data (the hypothesis under which the cursor invariant holds). -/
def goodUploadReq (r : UploadReq) : Prop :=
  ∀ d L, r.off = some 0 → r.data = some d → r.lenField = some L → d.length ≤ L

/-- A 1025-byte image payload: 1024 bytes of 0x11 and a final byte 0x77. -/
def c6Data : List Nat := List.replicate 1024 0x11 ++ [0x77]

/-! ## Projection lemmas used throughout the proofs -/

@[simp] theorem uploadOut_state (st : UploadState) (m : Mem) (ops : List RawOp) (rc : Nat)
    (sp : List (Nat × Bool)) (hk : Nat) (dz w : Bool) :
    (uploadOut st m ops rc sp hk dz w).state = st := rfl

@[simp] theorem uploadOut_mem (st : UploadState) (m : Mem) (ops : List RawOp) (rc : Nat)
    (sp : List (Nat × Bool)) (hk : Nat) (dz w : Bool) :
    (uploadOut st m ops rc sp hk dz w).mem = m := rfl

@[simp] theorem uploadOut_ops (st : UploadState) (m : Mem) (ops : List RawOp) (rc : Nat)
    (sp : List (Nat × Bool)) (hk : Nat) (dz w : Bool) :
    (uploadOut st m ops rc sp hk dz w).ops = ops := rfl

@[simp] theorem uploadOut_rc (st : UploadState) (m : Mem) (ops : List RawOp) (rc : Nat)
    (sp : List (Nat × Bool)) (hk : Nat) (dz w : Bool) :
    (uploadOut st m ops rc sp hk dz w).rc = rc := rfl

@[simp] theorem uploadOut_replyOff (st : UploadState) (m : Mem) (ops : List RawOp) (rc : Nat)
    (sp : List (Nat × Bool)) (hk : Nat) (dz w : Bool) :
    (uploadOut st m ops rc sp hk dz w).replyOff = if rc = 0 then some st.curr_off else none := rfl

@[simp] theorem uploadOut_setPendingCalls (st : UploadState) (m : Mem) (ops : List RawOp)
    (rc : Nat) (sp : List (Nat × Bool)) (hk : Nat) (dz w : Bool) :
    (uploadOut st m ops rc sp hk dz w).setPendingCalls = sp := rfl

@[simp] theorem uploadOut_hookCalls (st : UploadState) (m : Mem) (ops : List RawOp) (rc : Nat)
    (sp : List (Nat × Bool)) (hk : Nat) (dz w : Bool) :
    (uploadOut st m ops rc sp hk dz w).hookCalls = hk := rfl

@[simp] theorem uploadOut_divByZero (st : UploadState) (m : Mem) (ops : List RawOp) (rc : Nat)
    (sp : List (Nat × Bool)) (hk : Nat) (dz w : Bool) :
    (uploadOut st m ops rc sp hk dz w).divByZero = dz := rfl

@[simp] theorem uploadOut_wroteOk (st : UploadState) (m : Mem) (ops : List RawOp) (rc : Nat)
    (sp : List (Nat × Bool)) (hk : Nat) (dz w : Bool) :
    (uploadOut st m ops rc sp hk dz w).wroteOk = w := rfl

@[simp] theorem uploadFinish_state (env : UploadEnv) (st : UploadState) (m : Mem)
    (ops : List RawOp) (dz : Bool) : (uploadFinish env st m ops dz).state = st := by
  unfold uploadFinish
  split
  · split <;> rfl
  · rfl

@[simp] theorem uploadFinish_mem (env : UploadEnv) (st : UploadState) (m : Mem)
    (ops : List RawOp) (dz : Bool) : (uploadFinish env st m ops dz).mem = m := by
  unfold uploadFinish
  split
  · split <;> rfl
  · rfl

@[simp] theorem uploadFinish_ops (env : UploadEnv) (st : UploadState) (m : Mem)
    (ops : List RawOp) (dz : Bool) : (uploadFinish env st m ops dz).ops = ops := by
  unfold uploadFinish
  split
  · split <;> rfl
  · rfl

@[simp] theorem uploadFinish_wroteOk (env : UploadEnv) (st : UploadState) (m : Mem)
    (ops : List RawOp) (dz : Bool) : (uploadFinish env st m ops dz).wroteOk = true := by
  unfold uploadFinish
  split
  · split <;> rfl
  · rfl

/-! ## General lemmas about the raw memory operations -/

theorem rawWrite_get (data : List Nat) (m : Mem) (addr x : Nat) :
    rawWrite m addr data x =
      if addr ≤ x ∧ x < addr + data.length then data.getD (x - addr) 0 else m x := by
  induction data generalizing m addr with
  | nil =>
    simp only [rawWrite, List.length_nil, Nat.add_zero]
    rw [if_neg (by omega : ¬(addr ≤ x ∧ x < addr))]
  | cons b bs ih =>
    simp only [rawWrite, List.length_cons]
    rw [ih]
    by_cases h2 : x = addr
    · rw [if_neg (by omega : ¬(addr + 1 ≤ x ∧ x < addr + 1 + bs.length)), if_pos h2,
        if_pos (by omega : addr ≤ x ∧ x < addr + (bs.length + 1))]
      simp [h2]
    · by_cases h1 : addr + 1 ≤ x ∧ x < addr + 1 + bs.length
      · rw [if_pos h1, if_pos (by omega : addr ≤ x ∧ x < addr + (bs.length + 1))]
        have hx : x - addr = x - (addr + 1) + 1 := by omega
        rw [hx]
        simp
      · rw [if_neg h1, if_neg h2, if_neg (by omega : ¬(addr ≤ x ∧ x < addr + (bs.length + 1)))]

theorem rawReadBytes_rawWrite (m : Mem) (addr : Nat) (data : List Nat) :
    rawReadBytes (rawWrite m addr data) addr data.length = data := by
  apply List.ext_getElem
  · simp [rawReadBytes]
  · intro i h1 h2
    simp only [rawReadBytes, List.getElem_map, List.getElem_range]
    rw [rawWrite_get]
    rw [if_pos (by omega : addr ≤ addr + i ∧ addr + i < addr + data.length)]
    have hi : addr + i - addr = i := by omega
    rw [hi]
    exact List.getD_eq_getElem data 0 h2

theorem swap16_swap16 (x : Nat) (h : x < 65536) : swap16 (swap16 x) = x := by
  unfold swap16
  have h1 : x / 256 % 256 = x / 256 := Nat.mod_eq_of_lt (by omega)
  rw [h1]
  have h2 : (x % 256 * 256 + x / 256) % 256 = x / 256 := by omega
  have h3 : (x % 256 * 256 + x / 256) / 256 = x % 256 := by omega
  rw [h2, h3]
  omega

/-! ## Lemmas about the flash-area operations -/

theorem flash_area_open_mem (cfg : Config) (id : Nat) (fa : FlashArea)
    (h : flash_area_open cfg id = some fa) : fa ∈ s_flash_areas cfg :=
  List.mem_of_find?_eq_some
    (by simpa [flash_area_open, prv_lookup_flash_area] using h)

theorem flash_area_open_device (cfg : Config) (id : Nat) (fa : FlashArea)
    (h : flash_area_open cfg id = some fa) :
    fa.fa_device_id = FLASH_DEVICE_INTERNAL_FLASH := by
  have hm := flash_area_open_mem cfg id fa h
  simp only [s_flash_areas, List.mem_cons, List.mem_singleton] at hm
  rcases hm with h1 | h1 | h1 | h1 | h1 <;> first | (subst h1; rfl) | simp at h1

theorem flash_area_write_ok (fa : FlashArea) (off : Nat) (src : List Nat) (m : Mem)
    (hdev : fa.fa_device_id = FLASH_DEVICE_INTERNAL_FLASH)
    (hb : off + src.length ≤ fa.fa_size) (hlt : fa.fa_size < 2 ^ 32) :
    (flash_area_write fa off src m).ok = true := by
  unfold flash_area_write
  rw [if_neg (by simp [hdev]), if_neg (by rw [Nat.mod_eq_of_lt (by omega)]; omega)]
  split <;> rfl

theorem flash_area_write_mem_ge4 (fa : FlashArea) (off : Nat) (src : List Nat) (m : Mem)
    (hdev : fa.fa_device_id = FLASH_DEVICE_INTERNAL_FLASH)
    (hb : off + src.length ≤ fa.fa_size) (hlt : fa.fa_size < 2 ^ 32)
    (h4 : 4 ≤ src.length) :
    (flash_area_write fa off src m).mem = rawWrite m (fa.fa_off + off) src := by
  unfold flash_area_write
  rw [if_neg (by simp [hdev]), if_neg (by rw [Nat.mod_eq_of_lt (by omega)]; omega),
    if_neg (by omega)]

theorem flash_area_erase_ok (cfg : Config) (fa : FlashArea) (off len : Nat) (m : Mem)
    (hdev : fa.fa_device_id = FLASH_DEVICE_INTERNAL_FLASH)
    (hoff : off % cfg.sectorSize = 0) (hl : len % cfg.sectorSize = 0) :
    (flash_area_erase cfg fa off len m).ok = true := by
  unfold flash_area_erase
  rw [if_neg (by simp [hdev]), if_neg (by simp [hoff, hl])]

/-! ## Lemmas about the upload state machine -/

theorem uploadWrite_state (env : UploadEnv) (fap : FlashArea) (st : UploadState) (m : Mem)
    (ops0 : List RawOp) (chunk : List Nat) :
    (uploadWrite env fap st m ops0 chunk).state.img_num = st.img_num ∧
    (uploadWrite env fap st m ops0 chunk).state.img_size = st.img_size ∧
    (uploadWrite env fap st m ops0 chunk).state.curr_off ≤ st.curr_off + chunk.length := by
  unfold uploadWrite
  dsimp only
  have hr : chunk.length % flash_area_align fap ≤ chunk.length := Nat.mod_le _ _
  split
  · simp
  · split
    · split
      · exfalso
        omega
      · simp only [uploadFinish_state]
        exact ⟨by trivial, by trivial, by omega⟩
    · split
      · split
        · simp
        · simp only [uploadFinish_state]
          exact ⟨by trivial, by trivial, by omega⟩
      · simp only [uploadFinish_state]
        exact ⟨by trivial, by trivial, by omega⟩

theorem bs_upload_cursor (cfg : Config) (env : UploadEnv) (st : UploadState) (m : Mem)
    (req : UploadReq)
    (hA : ∀ fa ∈ s_flash_areas cfg, fa.fa_size < SIZE_MAX_C)
    (hreq : goodUploadReq req) (hst : st.curr_off ≤ st.img_size) :
    (bs_upload cfg env st m req).state.curr_off
      ≤ (bs_upload cfg env st m req).state.img_size := by
  obtain ⟨image, data, lenF, off⟩ := req
  unfold bs_upload
  cases off with
  | none => simpa using hst
  | some o =>
    cases data with
    | none => simpa using hst
    | some d =>
      dsimp only
      cases hopen : flash_area_open cfg
          (flash_area_id_from_multi_image_slot
            ({ st with img_num := upload_img_num st ⟨image, some d, lenF, some o⟩ }).img_num 1) with
      | none => simpa using hst
      | some fap =>
        dsimp only
        have hfapA : fap.fa_size < SIZE_MAX_C :=
          hA fap (flash_area_open_mem cfg _ fap hopen)
        by_cases ho : o = 0
        · subst ho
          rw [if_pos rfl]
          cases lenF with
          | none =>
            rw [if_pos (by simpa [flash_area_get_size] using hfapA)]
            simpa using hst
          | some L =>
            have hdL : d.length ≤ L := hreq d L rfl rfl rfl
            by_cases hL : L > flash_area_get_size fap
            · rw [if_pos hL]
              simpa using hst
            · rw [if_neg hL]
              split
              · simpa using hst
              · have h3 := uploadWrite_state env fap
                  { img_num := upload_img_num st ⟨image, some d, some L, some 0⟩,
                    img_size := L, curr_off := 0 }
                  (flash_area_erase cfg fap 0 (flash_area_get_size fap) m).mem
                  (flash_area_erase cfg fap 0 (flash_area_get_size fap) m).ops d
                dsimp only at h3 ⊢
                omega
        · rw [if_neg ho]
          by_cases hne : o ≠ st.curr_off
          · rw [if_pos hne]
            simpa using hst
          · rw [if_neg hne]
            push_neg at hne
            by_cases hover : st.curr_off + d.length > st.img_size
            · rw [if_pos hover]
              simpa using hst
            · rw [if_neg hover]
              have h3 := uploadWrite_state env fap
                { st with img_num := upload_img_num st ⟨image, some d, lenF, some o⟩ } m [] d
              dsimp only at h3 ⊢
              omega

theorem uploadWrite_tail (env : UploadEnv) (fap : FlashArea) (st : UploadState) (m : Mem)
    (ops0 : List RawOp) (d : List Nat)
    (hdev : fap.fa_device_id = FLASH_DEVICE_INTERNAL_FLASH)
    (hrem : 0 < d.length % 4)
    (hend : st.curr_off + d.length = st.img_size)
    (hsize : st.img_size ≤ fap.fa_size)
    (hlt : fap.fa_size < 2 ^ 32)
    (hal : 4 ∣ fap.fa_size)
    (hcal : 4 ∣ st.curr_off) :
    rawReadBytes (uploadWrite env fap st m ops0 d).mem
        (fap.fa_off + st.curr_off + (d.length - d.length % 4)) 4
      = (d.drop (d.length - d.length % 4)).take (d.length % 4)
        ++ List.replicate (4 - d.length % 4) 0xff := by
  have hd4 : d.length % 4 < 4 := Nat.mod_lt _ (by omega)
  have hlen1 : (d.length - d.length % 4) % 4 = 0 := by omega
  have hb2 : st.curr_off + (d.length - d.length % 4) + 4 ≤ fap.fa_size := by omega
  have hw1ok : (flash_area_write fap st.curr_off
      (List.take (d.length - d.length % 4) d) m).ok = true := by
    apply flash_area_write_ok _ _ _ _ hdev _ hlt
    rw [List.length_take]
    omega
  have htl : ((d.drop (d.length - d.length % 4)).take (d.length % 4)
      ++ List.replicate (4 - d.length % 4) 0xff).length = 4 := by
    simp only [List.length_append, List.length_take, List.length_drop, List.length_replicate]
    omega
  have hw2ok : (flash_area_write fap (st.curr_off + (d.length - d.length % 4))
      ((d.drop (d.length - d.length % 4)).take (d.length % 4)
        ++ List.replicate (4 - d.length % 4) 0xff)
      (flash_area_write fap st.curr_off (List.take (d.length - d.length % 4) d) m).mem).ok
      = true := by
    apply flash_area_write_ok _ _ _ _ hdev _ hlt
    rw [htl]
    exact hb2
  have hw2mem : (flash_area_write fap (st.curr_off + (d.length - d.length % 4))
      ((d.drop (d.length - d.length % 4)).take (d.length % 4)
        ++ List.replicate (4 - d.length % 4) 0xff)
      (flash_area_write fap st.curr_off (List.take (d.length - d.length % 4) d) m).mem).mem
      = rawWrite
          (flash_area_write fap st.curr_off (List.take (d.length - d.length % 4) d) m).mem
          (fap.fa_off + (st.curr_off + (d.length - d.length % 4)))
          ((d.drop (d.length - d.length % 4)).take (d.length % 4)
            ++ List.replicate (4 - d.length % 4) 0xff) := by
    apply flash_area_write_mem_ge4 _ _ _ _ hdev _ hlt
    · rw [htl]
    · rw [htl]
      exact hb2
  unfold uploadWrite
  dsimp only
  simp only [flash_area_align, flash_area_erased_val]
  rw [if_neg (by simp [hw1ok])]
  rw [if_neg (by omega : ¬(st.curr_off + (d.length - d.length % 4) + d.length % 4 < st.img_size))]
  rw [if_pos hrem]
  rw [if_neg (by simp [hw2ok])]
  simp only [uploadFinish_mem]
  rw [hw2mem]
  have haddr : fap.fa_off + st.curr_off + (d.length - d.length % 4)
      = fap.fa_off + (st.curr_off + (d.length - d.length % 4)) := by omega
  rw [haddr]
  have final := rawReadBytes_rawWrite
    (flash_area_write fap st.curr_off (List.take (d.length - d.length % 4) d) m).mem
    (fap.fa_off + (st.curr_off + (d.length - d.length % 4)))
    ((d.drop (d.length - d.length % 4)).take (d.length % 4)
      ++ List.replicate (4 - d.length % 4) 0xff)
  rw [htl] at final
  exact final

theorem uploadFinish_spec (env : UploadEnv) (st : UploadState) (m : Mem)
    (ops : List RawOp) (dz : Bool) :
    ((uploadFinish env st m ops dz).state.curr_off
        = (uploadFinish env st m ops dz).state.img_size →
      (uploadFinish env st m ops dz).hookCalls = 1 ∧
      (env.hookRc ≠ 0 → (uploadFinish env st m ops dz).rc = env.hookRc ∧
        (uploadFinish env st m ops dz).setPendingCalls = []) ∧
      (env.hookRc = 0 → (uploadFinish env st m ops dz).setPendingCalls = [(0, true)] ∧
        (uploadFinish env st m ops dz).rc = env.setPendingRc)) ∧
    ((uploadFinish env st m ops dz).state.curr_off
        < (uploadFinish env st m ops dz).state.img_size →
      (uploadFinish env st m ops dz).setPendingCalls = [] ∧
      (uploadFinish env st m ops dz).hookCalls = 0) := by
  unfold uploadFinish
  by_cases h : st.curr_off = st.img_size
  · rw [if_pos h]
    by_cases hh : env.hookRc ≠ 0
    · rw [if_pos hh]
      exact ⟨fun _ => ⟨rfl, fun _ => ⟨rfl, rfl⟩, fun hz => absurd hz hh⟩,
        fun hlt => absurd (show st.curr_off < st.img_size from hlt) (by omega)⟩
    · rw [if_neg hh]
      push_neg at hh
      exact ⟨fun _ => ⟨rfl, fun hnz => absurd hh hnz, fun _ => ⟨rfl, rfl⟩⟩,
        fun hlt => absurd (show st.curr_off < st.img_size from hlt) (by omega)⟩
  · rw [if_neg h]
    exact ⟨fun hc => absurd hc h, fun _ => ⟨rfl, rfl⟩⟩

/-! ## Lemmas about the bs_set scan loop -/

theorem bs_set_scan_eq_none (p : Nat → Bool) (i n : Nat)
    (h : ∀ j, i ≤ j → j < i + n → p j = false) : bs_set_scan p i n = none := by
  induction n generalizing i with
  | zero => rfl
  | succ k ih =>
    simp only [bs_set_scan]
    rw [h i (le_refl i) (by omega)]
    simp only [Bool.false_eq_true, if_false]
    exact ih (i + 1) (fun j hj1 hj2 => h j (by omega) (by omega))

theorem bs_set_scan_eq_some (p : Nat → Bool) (i n k : Nat) (hik : i ≤ k) (hk : k < i + n)
    (hp : p k = true) (hmin : ∀ j, i ≤ j → j < k → p j = false) :
    bs_set_scan p i n = some k := by
  induction n generalizing i with
  | zero => omega
  | succ km ih =>
    simp only [bs_set_scan]
    by_cases he : i = k
    · subst he
      rw [hp]
      simp
    · rw [hmin i (le_refl i) (by omega)]
      simp only [Bool.false_eq_true, if_false]
      exact ih (i + 1) (by omega) (by omega) (fun j hj1 hj2 => hmin j (by omega) hj2)

/-! ## Claim theorems -/

/-- C1: the dispatcher was claimed to drop a datagram exactly when it is
shorter than 8 bytes, the op is invalid, or the header length field EXCEEDS
the datagram length minus 8. The code compares in the other direction
(ntohs(nh_len) < len - 8): a 10-byte datagram whose header claims 5 payload
bytes (5 > 10 - 8) is handed to a handler instead of dropped, while a
12-byte datagram whose header claims 0 payload bytes (0 ≤ 12 - 8) is dropped
instead of dispatched. -/
theorem c1_header_length_check_inverted :
    ((([0, 0, 0, 5, 0, 1, 7, 6] ++ [160, 0] : List Nat)).length = 10 ∧
      swap16 (loadHdr ([0, 0, 0, 5, 0, 1, 7, 6] ++ [160, 0])).nh_len = 5 ∧
      (loadHdr ([0, 0, 0, 5, 0, 1, 7, 6] ++ [160, 0])).nh_op = NMGR_OP_READ ∧
      (boot_grp_procces ([0, 0, 0, 5, 0, 1, 7, 6] ++ [160, 0])).isSome = true) ∧
    ((([0, 0, 0, 0, 0, 1, 7, 6] ++ [160, 0, 0, 0] : List Nat)).length = 12 ∧
      swap16 (loadHdr ([0, 0, 0, 0, 0, 1, 7, 6] ++ [160, 0, 0, 0])).nh_len = 0 ∧
      (loadHdr ([0, 0, 0, 0, 0, 1, 7, 6] ++ [160, 0, 0, 0])).nh_op = NMGR_OP_READ ∧
      boot_grp_procces ([0, 0, 0, 0, 0, 1, 7, 6] ++ [160, 0, 0, 0]) = none) := by
  decide

/-- C2 counterexample: from the initial upload state, a single request at
off == 0 declaring len = 4 but carrying 8 bytes of data is accepted (the
off == 0 path never checks the chunk length against img_size) and leaves
curr_off = 8 > img_size = 4, refuting the claimed invariant. -/
theorem c2_counterexample :
    (runUpload cfgSample envSample ⟨0, 0, 0⟩ memSample
        [⟨none, some [1, 2, 3, 4, 5, 6, 7, 8], some 4, some 0⟩]).1.curr_off = 8 ∧
    (runUpload cfgSample envSample ⟨0, 0, 0⟩ memSample
        [⟨none, some [1, 2, 3, 4, 5, 6, 7, 8], some 4, some 0⟩]).1.img_size = 4 ∧
    (runUpload cfgSample envSample ⟨0, 0, 0⟩ memSample
        [⟨none, some [1, 2, 3, 4, 5, 6, 7, 8], some 4, some 0⟩]).1.curr_off >
      (runUpload cfgSample envSample ⟨0, 0, 0⟩ memSample
        [⟨none, some [1, 2, 3, 4, 5, 6, 7, 8], some 4, some 0⟩]).1.img_size := by
  decide

/-- C2 (amended): for every sequence of upload requests in which each chunk
at off == 0 carries at most its declared len bytes of data, the cursor
invariant curr_off ≤ img_size is preserved from any state satisfying it (in
particular from the initial state); without that restriction the off == 0
path can advance curr_off past img_size. -/
theorem c2_cursor_invariant_amended (cfg : Config) (env : UploadEnv)
    (reqs : List UploadReq) (st : UploadState) (m : Mem)
    (hA : ∀ fa ∈ s_flash_areas cfg, fa.fa_size < SIZE_MAX_C)
    (hreqs : ∀ r ∈ reqs, goodUploadReq r)
    (hst : st.curr_off ≤ st.img_size) :
    (runUpload cfg env st m reqs).1.curr_off ≤ (runUpload cfg env st m reqs).1.img_size := by
  induction reqs generalizing st m with
  | nil => simpa [runUpload] using hst
  | cons r rs ih =>
    simp only [runUpload]
    exact ih _ _ (fun q hq => hreqs q (List.mem_cons_of_mem r hq))
      (bs_upload_cursor cfg env st m r hA (hreqs r (List.mem_cons_self r rs)) hst)

theorem c2_cursor_invariant_amended_witness :
    (∀ fa ∈ s_flash_areas cfgSample, fa.fa_size < SIZE_MAX_C) ∧
    (runUpload cfgSample envSample ⟨0, 0, 0⟩ memSample
        [⟨none, some [1, 2, 3, 4], some 4, some 0⟩]).1.curr_off ≤
      (runUpload cfgSample envSample ⟨0, 0, 0⟩ memSample
        [⟨none, some [1, 2, 3, 4], some 4, some 0⟩]).1.img_size := by
  have hg : ∀ r ∈ [(⟨none, some [1, 2, 3, 4], some 4, some 0⟩ : UploadReq)], goodUploadReq r := by
    intro r hr
    simp only [List.mem_singleton] at hr
    subst hr
    intro d L _ h2 h3
    injection h2 with h2
    injection h3 with h3
    subst h2
    subst h3
    decide
  exact ⟨by decide, c2_cursor_invariant_amended cfgSample envSample _ ⟨0, 0, 0⟩ memSample
    (by decide) hg (by decide)⟩

/-- C3: the claim says the len < 4 read-modify-write path of
flash_area_write preserves the 4 − len bytes adjacent to the written range.
The code passes the device address base+off to flash_area_read, which
expects an area offset; for the secondary area (base 0x110000, size
0x100000) that internal read is rejected by the bounds check, its result is
ignored, and the neighbouring bytes are programmed to 0 instead of their
prior value 0x5A. -/
theorem c3_partial_write_clobbers_neighbors :
    (flash_area_write (secondary_img0 cfgSample) 0 [0xAB] memSample).ok = true ∧
    (flash_area_write (secondary_img0 cfgSample) 0 [0xAB] memSample).mem
      (secondary_img0 cfgSample).fa_off = 0xAB ∧
    (flash_area_write (secondary_img0 cfgSample) 0 [0xAB] memSample).mem
      ((secondary_img0 cfgSample).fa_off + 1) = 0 ∧
    memSample ((secondary_img0 cfgSample).fa_off + 1) = 0x5A ∧
    (flash_area_read (secondary_img0 cfgSample)
      ((secondary_img0 cfgSample).fa_off + 0) 4 memSample true).ok = false := by
  decide

/-- C4 counterexample: flash_area_erase performs no bounds check at all — an
erase starting at fa_size (sector-aligned, off+len > fa_size) succeeds and
reaches the raw driver; and the uint32 wraparound in off+len defeats the
read bounds check — a read at off = 2^32 − 4 of 8 bytes (off+len > fa_size
as unbounded naturals) succeeds and performs raw I/O. -/
theorem c4_counterexample :
    ((flash_area_erase cfgSample (secondary_img0 cfgSample)
        (secondary_img0 cfgSample).fa_size 0x1000 memSample).ok = true ∧
      (flash_area_erase cfgSample (secondary_img0 cfgSample)
        (secondary_img0 cfgSample).fa_size 0x1000 memSample).ops ≠ [] ∧
      (secondary_img0 cfgSample).fa_size + 0x1000 > (secondary_img0 cfgSample).fa_size) ∧
    ((flash_area_read (secondary_img0 cfgSample) (2 ^ 32 - 4) 8 memSample true).ok = true ∧
      (flash_area_read (secondary_img0 cfgSample) (2 ^ 32 - 4) 8 memSample true).ops ≠ [] ∧
      2 ^ 32 - 4 + 8 > (secondary_img0 cfgSample).fa_size) := by
  decide

/-- C4 (amended): flash_area_read and flash_area_write fail with an error
and perform no raw flash I/O whenever off + len computed in 32-bit
arithmetic exceeds the area size; flash_area_erase is excluded (it has no
bounds check), and the natural-number reading of the bound is weakened to
the uint32 one because of wraparound. -/
theorem c4_read_write_bounds_amended (fa : FlashArea) (off len : Nat) (src : List Nat)
    (m : Mem) (dstA : Bool) (hlen : src.length = len)
    (h : (off + len) % 2 ^ 32 > fa.fa_size) :
    ((flash_area_read fa off len m dstA).ok = false ∧
      (flash_area_read fa off len m dstA).ops = []) ∧
    ((flash_area_write fa off src m).ok = false ∧
      (flash_area_write fa off src m).ops = [] ∧
      (flash_area_write fa off src m).mem = m) := by
  subst hlen
  unfold flash_area_read flash_area_write
  by_cases hd : fa.fa_device_id ≠ FLASH_DEVICE_INTERNAL_FLASH
  · rw [if_pos hd, if_pos hd]
    exact ⟨⟨rfl, rfl⟩, rfl, rfl, rfl⟩
  · rw [if_neg hd, if_neg hd, if_pos h, if_pos h]
    exact ⟨⟨rfl, rfl⟩, rfl, rfl, rfl⟩

theorem c4_read_write_bounds_amended_witness :
    ((0x100000 + 1) % 2 ^ 32 > (secondary_img0 cfgSample).fa_size) ∧
    ((flash_area_read (secondary_img0 cfgSample) 0x100000 1 memSample true).ok = false ∧
      (flash_area_read (secondary_img0 cfgSample) 0x100000 1 memSample true).ops = []) ∧
    ((flash_area_write (secondary_img0 cfgSample) 0x100000 [0] memSample).ok = false ∧
      (flash_area_write (secondary_img0 cfgSample) 0x100000 [0] memSample).ops = [] ∧
      (flash_area_write (secondary_img0 cfgSample) 0x100000 [0] memSample).mem = memSample) :=
  ⟨by decide, c4_read_write_bounds_amended (secondary_img0 cfgSample) 0x100000 1 [0]
    memSample true (by decide) (by decide)⟩

/-- C5 counterexample: a request whose off field is present (6), nonzero and
different from curr_off (4) but which carries no data field is answered with
rc = EINVAL and no off, not with the claimed {rc:0, off:curr_off} (the spec
itself mandates EINVAL for a missing data key). -/
theorem c5_counterexample :
    (6 : Nat) ≠ 0 ∧ (6 : Nat) ≠ (⟨0, 8, 4⟩ : UploadState).curr_off ∧
    (bs_upload cfgSample envSample ⟨0, 8, 4⟩ memSample
      ⟨none, none, none, some 6⟩).rc = MGMT_ERR_EINVAL ∧
    (bs_upload cfgSample envSample ⟨0, 8, 4⟩ memSample
      ⟨none, none, none, some 6⟩).replyOff = none := by
  decide

/-- C5 (amended): for every upload request with off present, nonzero and
different from curr_off that also carries a data field, provided the
secondary area of the resident img_num opens, the handler performs no raw
flash operation, leaves (img_num, img_size, curr_off) unchanged, replies
{rc:0, off:curr_off}, and invokes neither hook nor set_pending — so a
replayed chunk is absorbed idempotently. -/
theorem c5_replay_amended (cfg : Config) (env : UploadEnv) (st : UploadState) (m : Mem)
    (req : UploadReq) (o : Nat) (d : List Nat) (fap : FlashArea)
    (hoff : req.off = some o) (ho : o ≠ 0) (hne : o ≠ st.curr_off)
    (hd : req.data = some d)
    (hopen : flash_area_open cfg (flash_area_id_from_multi_image_slot st.img_num 1)
      = some fap) :
    (bs_upload cfg env st m req).state = st ∧
    (bs_upload cfg env st m req).mem = m ∧
    (bs_upload cfg env st m req).ops = [] ∧
    (bs_upload cfg env st m req).rc = MGMT_ERR_OK ∧
    (bs_upload cfg env st m req).replyOff = some st.curr_off ∧
    (bs_upload cfg env st m req).setPendingCalls = [] ∧
    (bs_upload cfg env st m req).hookCalls = 0 := by
  obtain ⟨image, data, lenF, off⟩ := req
  simp only [Option.some.injEq] at hoff hd
  subst hoff
  subst hd
  unfold bs_upload
  dsimp only
  have hnum : upload_img_num st ⟨image, some d, lenF, some o⟩ = st.img_num := by
    unfold upload_img_num
    cases o with
    | zero => exact absurd rfl ho
    | succ n => rfl
  rw [hnum, hopen]
  dsimp only
  rw [if_neg ho, if_pos hne]
  simp [MGMT_ERR_OK]

theorem c5_replay_amended_witness :
    (6 : Nat) ≠ 0 ∧ (6 : Nat) ≠ (⟨0, 8, 4⟩ : UploadState).curr_off ∧
    (bs_upload cfgSample envSample ⟨0, 8, 4⟩ memSample
      ⟨none, some [9, 9], none, some 6⟩).state = ⟨0, 8, 4⟩ ∧
    (bs_upload cfgSample envSample ⟨0, 8, 4⟩ memSample
      ⟨none, some [9, 9], none, some 6⟩).mem = memSample ∧
    (bs_upload cfgSample envSample ⟨0, 8, 4⟩ memSample
      ⟨none, some [9, 9], none, some 6⟩).ops = [] ∧
    (bs_upload cfgSample envSample ⟨0, 8, 4⟩ memSample
      ⟨none, some [9, 9], none, some 6⟩).rc = MGMT_ERR_OK ∧
    (bs_upload cfgSample envSample ⟨0, 8, 4⟩ memSample
      ⟨none, some [9, 9], none, some 6⟩).replyOff = some 4 ∧
    (bs_upload cfgSample envSample ⟨0, 8, 4⟩ memSample
      ⟨none, some [9, 9], none, some 6⟩).setPendingCalls = [] ∧
    (bs_upload cfgSample envSample ⟨0, 8, 4⟩ memSample
      ⟨none, some [9, 9], none, some 6⟩).hookCalls = 0 := by
  have h := c5_replay_amended cfgSample envSample ⟨0, 8, 4⟩ memSample
    ⟨none, some [9, 9], none, some 6⟩ 6 [9, 9] (secondary_img0 cfgSample)
    rfl (by decide) (by decide) rfl (by decide)
  exact ⟨by decide, by decide, h.1, h.2.1, h.2.2.1, h.2.2.2.1, h.2.2.2.2.1,
    h.2.2.2.2.2.1, h.2.2.2.2.2.2⟩

/-- C6: for an upload chunk that ends exactly at img_size and whose length
is not a multiple of the 4-byte alignment unit, the rem = len mod 4
residual bytes are written as a single aligned word padded with the erased
value 0xff: the flash bytes at the 4-byte word starting at the chunk's last
aligned boundary equal the residual bytes followed by 0xff padding. The
hypothesis covers both the single-chunk upload at off == 0 (with the erase
side conditions) and the final chunk of a longer upload at off == curr_off. -/
theorem c6_unaligned_tail (cfg : Config) (env : UploadEnv) (st : UploadState) (m : Mem)
    (req : UploadReq) (d : List Nat) (fap : FlashArea)
    (hopen : flash_area_open cfg
      (flash_area_id_from_multi_image_slot (upload_img_num st req) 1) = some fap)
    (hoff : req.off = some st.curr_off)
    (hd : req.data = some d)
    (hrem : 0 < d.length % 4)
    (hsize : st.curr_off + d.length ≤ fap.fa_size)
    (hlt : fap.fa_size < 2 ^ 32)
    (hal : 4 ∣ fap.fa_size)
    (hcase : (st.curr_off = 0 ∧ req.lenField = some d.length ∧ cfg.sectorSize ∣ fap.fa_size)
        ∨ (st.curr_off ≠ 0 ∧ 4 ∣ st.curr_off ∧ st.curr_off + d.length = st.img_size)) :
    rawReadBytes (bs_upload cfg env st m req).mem
        (fap.fa_off + st.curr_off + (d.length - d.length % 4)) 4
      = (d.drop (d.length - d.length % 4)).take (d.length % 4)
        ++ List.replicate (4 - d.length % 4) 0xff := by
  have hdev : fap.fa_device_id = FLASH_DEVICE_INTERNAL_FLASH :=
    flash_area_open_device cfg _ fap hopen
  obtain ⟨image, data, lenF, off⟩ := req
  simp only [Option.some.injEq] at hoff hd
  subst hoff
  subst hd
  unfold bs_upload
  dsimp only
  rw [hopen]
  dsimp only
  rcases hcase with ⟨hz, hlF, hsec⟩ | ⟨hz, hcal, hend⟩
  · rw [hz] at hsize ⊢
    simp only [Option.some.injEq] at hlF
    subst hlF
    rw [if_pos rfl]
    rw [if_neg (by simp only [flash_area_get_size]; omega)]
    have her : (flash_area_erase cfg fap 0 (flash_area_get_size fap) m).ok = true := by
      apply flash_area_erase_ok cfg fap _ _ m hdev (by simp)
      simp only [flash_area_get_size]
      omega
    rw [if_neg (by simp [her])]
    have htail := uploadWrite_tail env fap
      { img_num := upload_img_num st ⟨image, some d, some d.length, some 0⟩,
        img_size := d.length, curr_off := 0 }
      (flash_area_erase cfg fap 0 (flash_area_get_size fap) m).mem
      (flash_area_erase cfg fap 0 (flash_area_get_size fap) m).ops d
      hdev hrem (by simp) (by simpa using hsize) hlt hal (by simp)
    simpa using htail
  · rw [if_neg hz, if_neg (by simp : ¬ st.curr_off ≠ st.curr_off),
      if_neg (by omega : ¬ st.curr_off + d.length > st.img_size)]
    have htail := uploadWrite_tail env fap
      { st with img_num := upload_img_num st ⟨image, some d, lenF, some st.curr_off⟩ }
      m [] d hdev hrem (by simpa using hend) (by simpa using by omega : _ ≤ fap.fa_size)
      hlt hal (by simpa using hcal)
    simpa using htail

theorem c6_unaligned_tail_witness :
    0 < c6Data.length % 4 ∧ c6Data.length = 1025 ∧
    rawReadBytes
        (bs_upload cfgSample envSample ⟨0, 0, 0⟩ memSample
          ⟨none, some c6Data, some 1025, some 0⟩).mem
        ((secondary_img0 cfgSample).fa_off + (⟨0, 0, 0⟩ : UploadState).curr_off
          + (c6Data.length - c6Data.length % 4)) 4
      = [0x77, 0xff, 0xff, 0xff] := by
  have h := c6_unaligned_tail cfgSample envSample ⟨0, 0, 0⟩ memSample
    ⟨none, some c6Data, some 1025, some 0⟩ c6Data (secondary_img0 cfgSample)
    (by decide) rfl rfl (by decide) (by decide) (by decide) (by decide)
    (Or.inl ⟨rfl, by decide, by decide⟩)
  exact ⟨by decide, by decide, h.trans (by decide)⟩

/-- C7 counterexample: the claim says hashes are compared only for slots
that pass integrity validation. A secondary slot whose header magic is not
IMAGE_MAGIC skips the validation call entirely and is still hash-compared:
with the validator answering false, a matching manifest hash on that slot
still triggers set_pending (and the reply is the image list, not ENOENT). -/
theorem c7_counterexample :
    le32 memSample (secondary_img0 cfgSample).fa_off ≠ IMAGE_MAGIC ∧
    (⟨1, fun _ => false, fun _ => some [⟨1024, 32, 16⟩], 0⟩ : SetEnv).validate 0 = false ∧
    (bs_set cfgSample ⟨1, fun _ => false, fun _ => some [⟨1024, 32, 16⟩], 0⟩ memSample
      ⟨false, List.replicate 32 0x5A⟩).setPendingCalls = [(0, false)] ∧
    (bs_set cfgSample ⟨1, fun _ => false, fun _ => some [⟨1024, 32, 16⟩], 0⟩ memSample
      ⟨false, List.replicate 32 0x5A⟩).reply = SetReply.list := by
  decide

/-- C7 (amended): for a set request carrying a hash of the expected size,
the handler scans the secondary slot of every image index in ascending
order; a slot is a candidate when its area opens and it either passes
validation or has a non-IMAGE_MAGIC header (validation is consulted only
when the magic matches), and its manifest hash equals the supplied one.
set_pending is invoked with the first matching index; when no slot matches,
the reply is {rc:5} (ENOENT) and set_pending is not invoked. -/
theorem c7_set_hash_scan_amended (cfg : Config) (env : SetEnv) (m : Mem) (req : SetReq)
    (h32 : req.hash.length = IMAGE_HASH_SIZE) :
    ((∀ i, i < env.numImages → bs_set_slot_match cfg env m req i = false) →
      (bs_set cfg env m req).reply = SetReply.rc MGMT_ERR_ENOENT ∧
      (bs_set cfg env m req).setPendingCalls = []) ∧
    (∀ i, i < env.numImages → bs_set_slot_match cfg env m req i = true →
      (∀ j, j < i → bs_set_slot_match cfg env m req j = false) →
      (bs_set cfg env m req).setPendingCalls = [(i, req.confirm)] ∧
      (bs_set cfg env m req).reply =
        (if env.setPendingRc = 0 then SetReply.list else SetReply.rc env.setPendingRc)) := by
  have hnz : req.hash.length ≠ 0 := by
    rw [h32]
    simp [IMAGE_HASH_SIZE]
  constructor
  · intro hnone
    have hscan : bs_set_scan (bs_set_slot_match cfg env m req) 0 env.numImages = none :=
      bs_set_scan_eq_none _ 0 env.numImages (fun j _ hj2 => hnone j (by omega))
    unfold bs_set
    rw [if_neg (by rw [h32]; simp [IMAGE_HASH_SIZE]), if_pos hnz, hscan]
    exact ⟨rfl, rfl⟩
  · intro i hi hp hmin
    have hscan : bs_set_scan (bs_set_slot_match cfg env m req) 0 env.numImages = some i :=
      bs_set_scan_eq_some _ 0 env.numImages i (by omega) (by omega) hp
        (fun j _ hj2 => hmin j hj2)
    unfold bs_set
    rw [if_neg (by rw [h32]; simp [IMAGE_HASH_SIZE]), if_pos hnz, hscan]
    exact ⟨rfl, rfl⟩

theorem c7_set_hash_scan_amended_witness :
    (List.replicate 32 (0 : Nat)).length = IMAGE_HASH_SIZE ∧
    bs_set_slot_match cfgSample ⟨1, fun _ => false, fun _ => none, 0⟩ memSample
      ⟨false, List.replicate 32 0⟩ 0 = false ∧
    (bs_set cfgSample ⟨1, fun _ => false, fun _ => none, 0⟩ memSample
      ⟨false, List.replicate 32 0⟩).reply = SetReply.rc MGMT_ERR_ENOENT ∧
    (bs_set cfgSample ⟨1, fun _ => false, fun _ => none, 0⟩ memSample
      ⟨false, List.replicate 32 0⟩).setPendingCalls = [] := by
  have h := (c7_set_hash_scan_amended cfgSample ⟨1, fun _ => false, fun _ => none, 0⟩
    memSample ⟨false, List.replicate 32 0⟩ (by decide)).1 (by decide)
  exact ⟨by decide, by decide, h.1, h.2⟩

/-- C8 counterexample: after a completed upload (curr_off = img_size = 4), a
replayed chunk at off = 8 is absorbed by the idempotent-replay path with
rc = 0; after its processing curr_off still equals img_size, yet neither the
post-upload hook nor set_pending is invoked — refuting the claim as stated
for every request after whose processing curr_off equals img_size. -/
theorem c8_counterexample :
    (bs_upload cfgSample envSample ⟨0, 4, 4⟩ memSample
      ⟨none, some [1, 2, 3, 4], none, some 8⟩).rc = MGMT_ERR_OK ∧
    (bs_upload cfgSample envSample ⟨0, 4, 4⟩ memSample
      ⟨none, some [1, 2, 3, 4], none, some 8⟩).state.curr_off =
      (bs_upload cfgSample envSample ⟨0, 4, 4⟩ memSample
        ⟨none, some [1, 2, 3, 4], none, some 8⟩).state.img_size ∧
    (bs_upload cfgSample envSample ⟨0, 4, 4⟩ memSample
      ⟨none, some [1, 2, 3, 4], none, some 8⟩).setPendingCalls = [] ∧
    (bs_upload cfgSample envSample ⟨0, 4, 4⟩ memSample
      ⟨none, some [1, 2, 3, 4], none, some 8⟩).hookCalls = 0 := by
  decide

/-- C8 (amended): for every upload request whose chunk is actually written
successfully (wroteOk), if afterwards curr_off = img_size then the handler
invokes the post-upload hook exactly once; a nonzero hook result becomes the
reply rc and suppresses set_pending, a zero hook result leads to exactly one
set_pending(0, true) call whose result becomes the rc. For every request
after which curr_off < img_size, neither set_pending nor the hook is
invoked (requests absorbed by the replay path or rejected never invoke
them, even when curr_off = img_size already held). -/
theorem c8_completion_amended (cfg : Config) (env : UploadEnv) (st : UploadState) (m : Mem)
    (req : UploadReq) :
    ((bs_upload cfg env st m req).wroteOk = true →
      (bs_upload cfg env st m req).state.curr_off
        = (bs_upload cfg env st m req).state.img_size →
      (bs_upload cfg env st m req).hookCalls = 1 ∧
      (env.hookRc ≠ 0 → (bs_upload cfg env st m req).rc = env.hookRc ∧
        (bs_upload cfg env st m req).setPendingCalls = []) ∧
      (env.hookRc = 0 → (bs_upload cfg env st m req).setPendingCalls = [(0, true)] ∧
        (bs_upload cfg env st m req).rc = env.setPendingRc)) ∧
    ((bs_upload cfg env st m req).state.curr_off
        < (bs_upload cfg env st m req).state.img_size →
      (bs_upload cfg env st m req).setPendingCalls = [] ∧
      (bs_upload cfg env st m req).hookCalls = 0) := by
  have hW : ∀ (fapw : FlashArea) (stw : UploadState) (mw : Mem) (opsw : List RawOp)
      (dw : List Nat),
      ((uploadWrite env fapw stw mw opsw dw).wroteOk = true →
        (uploadWrite env fapw stw mw opsw dw).state.curr_off
          = (uploadWrite env fapw stw mw opsw dw).state.img_size →
        (uploadWrite env fapw stw mw opsw dw).hookCalls = 1 ∧
        (env.hookRc ≠ 0 → (uploadWrite env fapw stw mw opsw dw).rc = env.hookRc ∧
          (uploadWrite env fapw stw mw opsw dw).setPendingCalls = []) ∧
        (env.hookRc = 0 → (uploadWrite env fapw stw mw opsw dw).setPendingCalls = [(0, true)] ∧
          (uploadWrite env fapw stw mw opsw dw).rc = env.setPendingRc)) ∧
      ((uploadWrite env fapw stw mw opsw dw).state.curr_off
          < (uploadWrite env fapw stw mw opsw dw).state.img_size →
        (uploadWrite env fapw stw mw opsw dw).setPendingCalls = [] ∧
        (uploadWrite env fapw stw mw opsw dw).hookCalls = 0) := by
    intro fapw stw mw opsw dw
    unfold uploadWrite
    dsimp only
    split
    · simp
    · split
      · split
        · exfalso
          omega
        · exact ⟨fun _ => (uploadFinish_spec env _ _ _ _).1, (uploadFinish_spec env _ _ _ _).2⟩
      · split
        · split
          · simp
          · exact ⟨fun _ => (uploadFinish_spec env _ _ _ _).1, (uploadFinish_spec env _ _ _ _).2⟩
        · exact ⟨fun _ => (uploadFinish_spec env _ _ _ _).1, (uploadFinish_spec env _ _ _ _).2⟩
  obtain ⟨image, data, lenF, off⟩ := req
  unfold bs_upload
  cases off with
  | none => simp
  | some o =>
    cases data with
    | none => simp
    | some d =>
      dsimp only
      cases hopen : flash_area_open cfg
          (flash_area_id_from_multi_image_slot
            ({ st with img_num := upload_img_num st ⟨image, some d, lenF, some o⟩ }).img_num 1) with
      | none => simp
      | some fap =>
        dsimp only
        by_cases ho : o = 0
        · subst ho
          rw [if_pos rfl]
          split
          · simp
          · split
            · simp
            · exact hW fap _ _ _ d
        · rw [if_neg ho]
          by_cases hne : o ≠ st.curr_off
          · rw [if_pos hne]
            simp
          · rw [if_neg hne]
            split
            · simp
            · exact hW fap _ _ _ d

theorem c8_completion_amended_witness :
    (bs_upload cfgSample envSample ⟨0, 0, 0⟩ memSample
      ⟨none, some [1, 2, 3, 4], some 4, some 0⟩).wroteOk = true ∧
    (bs_upload cfgSample envSample ⟨0, 0, 0⟩ memSample
      ⟨none, some [1, 2, 3, 4], some 4, some 0⟩).state.curr_off =
      (bs_upload cfgSample envSample ⟨0, 0, 0⟩ memSample
        ⟨none, some [1, 2, 3, 4], some 4, some 0⟩).state.img_size ∧
    (bs_upload cfgSample envSample ⟨0, 0, 0⟩ memSample
      ⟨none, some [1, 2, 3, 4], some 4, some 0⟩).hookCalls = 1 ∧
    (bs_upload cfgSample envSample ⟨0, 0, 0⟩ memSample
      ⟨none, some [1, 2, 3, 4], some 4, some 0⟩).setPendingCalls = [(0, true)] := by
  have h := (c8_completion_amended cfgSample envSample ⟨0, 0, 0⟩ memSample
    ⟨none, some [1, 2, 3, 4], some 4, some 0⟩).1 (by decide) (by decide)
  exact ⟨by decide, by decide, h.1, (h.2.2 rfl).1⟩

/-- C9: the progress-percentage computation curr_off*100/img_size of
bs_upload is reachable with img_size = 0 from the public interface: the
request {off:0, len:0, data:empty} passes every guard (0 ≤ area size, erase
succeeds), sets img_size to 0, and reaches the division with a zero
divisor (divByZero records reaching that program point with img_size = 0). -/
theorem c9_division_by_zero_reachable :
    (bs_upload cfgSample envSample ⟨0, 0, 0⟩ memSample
      ⟨none, some [], some 0, some 0⟩).divByZero = true := by
  decide

/-- C10: the reply to a received SMP header carries the request's seq and id
bytes unchanged; composing the receive-side in-place group byte-swap with
the send path (which rewrites nh_len to the byte-swapped payload length and
re-swaps nh_group) yields exactly the original header with only the length
field rewritten. -/
theorem c10_seq_id_roundtrip (h : NmgrHdr) (L : Nat) (hg : h.nh_group < 65536) :
    (boot_reply_hdr h L).nh_seq = h.nh_seq ∧ (boot_reply_hdr h L).nh_id = h.nh_id ∧
    boot_reply_hdr h L = { h with nh_len := swap16 L } := by
  obtain ⟨op, ver, res, fl, len, gr, seq, id⟩ := h
  refine ⟨rfl, rfl, ?_⟩
  simp only [boot_reply_hdr, boot_grp_send_hdr]
  simp only [NmgrHdr.mk.injEq, and_true, true_and]
  exact swap16_swap16 gr hg

theorem c10_seq_id_roundtrip_witness :
    (⟨2, 0, 0, 7, 1280, 256, 9, 6⟩ : NmgrHdr).nh_group < 65536 ∧
    (boot_reply_hdr ⟨2, 0, 0, 7, 1280, 256, 9, 6⟩ 5).nh_seq
      = (⟨2, 0, 0, 7, 1280, 256, 9, 6⟩ : NmgrHdr).nh_seq ∧
    (boot_reply_hdr ⟨2, 0, 0, 7, 1280, 256, 9, 6⟩ 5).nh_id
      = (⟨2, 0, 0, 7, 1280, 256, 9, 6⟩ : NmgrHdr).nh_id ∧
    boot_reply_hdr ⟨2, 0, 0, 7, 1280, 256, 9, 6⟩ 5
      = { (⟨2, 0, 0, 7, 1280, 256, 9, 6⟩ : NmgrHdr) with nh_len := swap16 5 } :=
  ⟨by decide, c10_seq_id_roundtrip ⟨2, 0, 0, 7, 1280, 256, 9, 6⟩ 5 (by decide)⟩
